import Mathlib

/-!
Shallow embedding of the playback-session coordinator of
`src/bot/plugins/music.rs`: the per-server queue map, the playing-status
map, the time-keyed song-completion index, and the facade operations
`join`, `leave`, `play`, `skip`, `status`.

`HashMap` fields are modelled as association lists with the exact
`get` / `insert` / `remove` / `entry(..).or_insert(..)` semantics;
`BTreeMap<u64, Vec<ServerId>>` is modelled as a key-sorted association
list; `i64` arithmetic in `status` is modelled with an explicit
two's-complement wrap.  The Discord gateway is external: operations take
the facts it reports (user in voice, bot in voice) as boolean inputs,
and a resolved download as an `Option MusicRequest`.
-/

/-- Lookup in an association list keyed by `Nat`, modelling `HashMap::get`
and `BTreeMap::get`. -/
def mapFind {α : Type} (k : Nat) : List (Nat × α) → Option α
  | [] => none
  | (k', v) :: rest => if k' = k then some v else mapFind k rest

/-- Membership test, modelling `HashMap::contains_key`. -/
def mapContains {α : Type} (k : Nat) (m : List (Nat × α)) : Bool :=
  (mapFind k m).isSome

/-- Insert-or-replace, modelling `HashMap::insert` (the value under an
existing key is replaced; otherwise the pair is added). -/
def mapInsert {α : Type} (k : Nat) (v : α) : List (Nat × α) → List (Nat × α)
  | [] => [(k, v)]
  | (k', w) :: rest => if k' = k then (k, v) :: rest else (k', w) :: mapInsert k v rest

/-- Key removal, modelling `HashMap::remove`. -/
def mapErase {α : Type} (k : Nat) : List (Nat × α) → List (Nat × α)
  | [] => []
  | (k', w) :: rest => if k' = k then rest else (k', w) :: mapErase k rest

/-- Modelling `map.entry(k).or_insert(v)`: keep the map if the key is
present, otherwise add `(k, v)`. -/
def entryOr {α : Type} (k : Nat) (v : α) (m : List (Nat × α)) : List (Nat × α) :=
  if mapContains k m then m else m ++ [(k, v)]

/-- Number of pairs with key `k`; a real `HashMap` state has at most one. -/
def keyCount {α : Type} (k : Nat) : List (Nat × α) → Nat
  | [] => 0
  | (k', _) :: rest => (if k' = k then 1 else 0) + keyCount k rest

/-- Ordered insert-or-replace, modelling `BTreeMap::insert` on a
key-sorted association list. -/
def btreeInsert {α : Type} (k : Nat) (v : α) : List (Nat × α) → List (Nat × α)
  | [] => [(k, v)]
  | (k', w) :: rest =>
      if k < k' then (k, v) :: (k', w) :: rest
      else if k = k' then (k, v) :: rest
      else (k', w) :: btreeInsert k v rest

/-- Membership of a `Nat` in a list, modelling `Vec::contains` /
`iter().position(..).is_some()`. -/
def elemNat (x : Nat) : List Nat → Bool
  | [] => false
  | y :: ys => if y = x then true else elemNat x ys

/-- Number of occurrences of `x` in a list of `Nat`. -/
def occCount (x : Nat) : List Nat → Nat
  | [] => 0
  | y :: ys => (if y = x then 1 else 0) + occCount x ys

/-- Remove the first occurrence of `x`, modelling
`v.iter().position(..)` followed by `v.remove(idx)`. -/
def removeFirst (x : Nat) : List Nat → List Nat
  | [] => []
  | y :: ys => if y = x then ys else y :: removeFirst x ys

/-- The completion-removal loop of `Music::skip`: walk the keys of the
index in order; at the first vector containing the server, remove that
one occurrence and stop (`break`). -/
def removeCompletion (sid : Nat) : List (Nat × List Nat) → List (Nat × List Nat)
  | [] => []
  | (k, v) :: rest =>
      if elemNat sid v then (k, removeFirst sid v) :: rest
      else (k, v) :: removeCompletion sid rest

/-- Total number of occurrences of a server across every key of the
completion index. -/
def compCount (sid : Nat) : List (Nat × List Nat) → Nat
  | [] => 0
  | (_, v) :: rest => occCount sid v + compCount sid rest

/-- Number of index keys whose vector contains the server. -/
def keysWith (sid : Nat) : List (Nat × List Nat) → Nat
  | [] => 0
  | (_, v) :: rest => (if elemNat sid v then 1 else 0) + keysWith sid rest

/-- Two's-complement wrap into the `i64` range, used to model Rust
release-mode `i64` arithmetic and the `u64 as i64` cast in
`Music::status`. -/
def wrap64 (x : Int) : Int :=
  (x + 9223372036854775808) % 18446744073709551616 - 9223372036854775808

namespace Music

abbrev ServerId := Nat
abbrev UserId := Nat
abbrev ChannelId := Nat

/-- Metadata of a resolved song, from `ext/youtube_dl.rs` (`duration` is
`u64` seconds). -/
structure YoutubeDLData where
  duration : Nat
  fulltitle : String
  title : String
  uploader : String
  view_count : Nat
deriving DecidableEq

/-- A successful download result, from `ext/youtube_dl.rs`. -/
structure Response where
  data : YoutubeDLData
  filepath : String
deriving DecidableEq

/-- Outcome tags of the skip-vote computation (`SkipVote` in the source). -/
inductive SkipVote where
  | AlreadyVoted
  | Passed
  | Voted
  | VoterSkipped
deriving DecidableEq

/-- A queued play request (`MusicRequest` in the source). -/
structure MusicRequest where
  response : Response
  requested_in : ChannelId
  requester_name : String
  requester : UserId
deriving DecidableEq

/-- The record of the currently playing item (`MusicPlaying` in the
source); `skip_votes_required` is a `u16`, `started_at` a `u64`. -/
structure MusicPlaying where
  req : MusicRequest
  skip_votes_required : Nat
  skip_votes : List UserId
  started_at : Nat
deriving DecidableEq

/-- The shared state (`MusicState` in the source): queue map, completion
index (`song_completion`), and per-server playing status where a present
key with value `none` means connected but idle. -/
structure MusicState where
  queue : List (ServerId × List MusicRequest)
  song_completion : List (Nat × List ServerId)
  status : List (ServerId × Option MusicPlaying)
deriving DecidableEq

/-- `MusicState::new`: all three structures empty. -/
def MusicState.new : MusicState :=
  { queue := [], song_completion := [], status := [] }

/-- `Music::join`, state part: reject when a status key already exists
(already in a voice channel); otherwise insert the idle status entry and
ensure a queue entry.  The returned `Bool` is `false` for the
already-connected rejection. -/
def join (st : MusicState) (sid : ServerId) : Bool × MusicState :=
  if mapContains sid st.status then (false, st)
  else
    (true,
      { st with
        status := mapInsert sid none st.status,
        queue := entryOr sid [] st.queue })

/-- `Music::leave`, state part: drop the voice connection, then remove
the status and queue entries.  The completion index is not touched. -/
def leave (st : MusicState) (sid : ServerId) : MusicState :=
  { st with status := mapErase sid st.status, queue := mapErase sid st.queue }

/-- `Music::play`, state part.  `urlEmpty` is whether the command text is
empty, `userInVoice` whether the gateway locates the author in a voice
channel of some server, `resolved` the download outcome (`none` when the
download failed), `inVoice` whether the bot reports a current voice
channel for this server at the scheduling check.  Control flow follows
the source: early exit when no status key exists, the user is not in
voice and no URL was given; otherwise ensure a queue entry; stop there
when the URL is empty or the download failed; otherwise compute the
completion-registration flag (no status key, and in voice) before the
push, append the request to the queue, and register the server under
key `0` of the completion index when the flag holds. -/
def play (st : MusicState) (sid : ServerId) (urlEmpty userInVoice : Bool)
    (resolved : Option MusicRequest) (inVoice : Bool) : MusicState :=
  if !mapContains sid st.status && !userInVoice && urlEmpty then st
  else
    let st1 : MusicState := { st with queue := entryOr sid [] st.queue }
    if urlEmpty then st1
    else
      match resolved with
      | none => st1
      | some req =>
        let add := !mapContains sid st1.status && inVoice
        let st2 : MusicState :=
          { st1 with
            queue := mapInsert sid ((mapFind sid st1.queue).getD [] ++ [req]) st1.queue }
        if add then { st2 with song_completion := btreeInsert 0 [sid] st2.song_completion }
        else st2

/-- `Music::skip`, state part.  The result is `none` for the
"No song is currently playing" report (status key missing, or present
with no playing record); otherwise the `SkipVote` outcome.  The voter
being the requester forces a stop; otherwise a first-time voter is
appended to `skip_votes` and the tally compared with
`skip_votes_required`; a repeated voter changes nothing.  Forced stops
(`VoterSkipped`, `Passed`) reset the status entry to `none` and run the
completion-removal loop. -/
def skip (st : MusicState) (sid : ServerId) (uid : UserId) :
    Option SkipVote × MusicState :=
  match mapFind sid st.status with
  | some (some cur) =>
      if cur.req.requester = uid then
        (some SkipVote.VoterSkipped,
          { st with
            status := mapInsert sid none st.status,
            song_completion := removeCompletion sid st.song_completion })
      else if !elemNat uid cur.skip_votes then
        if cur.skip_votes_required ≤ (cur.skip_votes ++ [uid]).length then
          (some SkipVote.Passed,
            { st with
              status := mapInsert sid none st.status,
              song_completion := removeCompletion sid st.song_completion })
        else
          (some SkipVote.Voted,
            { st with
              status := mapInsert sid (some { cur with skip_votes := cur.skip_votes ++ [uid] }) st.status })
      else (some SkipVote.AlreadyVoted, st)
  | _ => (none, st)

/-- `Music::status`, state part: read-only.  With a playing record it
reports `ran = now - started_at as i64` and
`remaining = (started_at as i64 + duration as i64) - now` in `i64`
arithmetic; otherwise it reports nothing (`No song is currently
playing`). -/
def statusOp (st : MusicState) (sid : ServerId) (now : Int) :
    Option (Int × Int) × MusicState :=
  match mapFind sid st.status with
  | some (some cur) =>
      (some
        (wrap64 (now - wrap64 (cur.started_at : Int)),
         wrap64 (wrap64 (wrap64 (cur.started_at : Int) +
           wrap64 (cur.req.response.data.duration : Int)) - now)),
       st)
  | _ => (none, st)

/-- One state transition of the coordinator: any single `join`, `leave`,
`play` or `skip` call, with arbitrary externally supplied inputs. -/
inductive Step : MusicState → MusicState → Prop where
  | join (st : MusicState) (sid : ServerId) : Step st (Music.join st sid).2
  | leave (st : MusicState) (sid : ServerId) : Step st (Music.leave st sid)
  | play (st : MusicState) (sid : ServerId) (urlEmpty userInVoice : Bool)
      (resolved : Option MusicRequest) (inVoice : Bool) :
      Step st (Music.play st sid urlEmpty userInVoice resolved inVoice)
  | skip (st : MusicState) (sid : ServerId) (uid : UserId) :
      Step st (Music.skip st sid uid).2

/-- States reachable from the fresh `MusicState::new` by facade calls. -/
inductive Reachable : MusicState → Prop where
  | init : Reachable MusicState.new
  | step {st st' : MusicState} : Reachable st → Step st st' → Reachable st'

end Music

/-! Lemmas about the association-list map operations. -/

theorem mapFind_mapInsert_self {α : Type} (k : Nat) (v : α) (m : List (Nat × α)) :
    mapFind k (mapInsert k v m) = some v := by
  induction m with
  | nil => simp [mapInsert, mapFind]
  | cons p rest ih =>
      obtain ⟨k', w⟩ := p
      by_cases h : k' = k
      · simp [mapInsert, h, mapFind]
      · simp [mapInsert, h, mapFind, ih]

theorem mapFind_mapInsert_ne {α : Type} (t k : Nat) (v : α) (m : List (Nat × α))
    (h : t ≠ k) : mapFind t (mapInsert k v m) = mapFind t m := by
  induction m with
  | nil => simp [mapInsert, mapFind, Ne.symm h]
  | cons p rest ih =>
      obtain ⟨k', w⟩ := p
      by_cases hk : k' = k
      · subst hk
        simp [mapInsert, mapFind, Ne.symm h]
      · simp [mapInsert, hk, mapFind, ih]

theorem mapFind_append_ne {α : Type} (t k : Nat) (v : α) (m : List (Nat × α))
    (h : t ≠ k) : mapFind t (m ++ [(k, v)]) = mapFind t m := by
  induction m with
  | nil => simp [mapFind, Ne.symm h]
  | cons p rest ih =>
      obtain ⟨k', w⟩ := p
      by_cases hk : k' = t
      · simp [mapFind, hk]
      · simp [mapFind, hk, ih]

theorem mapFind_append_none {α : Type} (k : Nat) (v : α) (m : List (Nat × α))
    (h : mapFind k m = none) : mapFind k (m ++ [(k, v)]) = some v := by
  induction m with
  | nil => simp [mapFind]
  | cons p rest ih =>
      obtain ⟨k', w⟩ := p
      by_cases hk : k' = k
      · simp [mapFind, hk] at h
      · simp [mapFind, hk] at h ⊢
        exact ih h

theorem mapFind_entryOr_self {α : Type} (k : Nat) (v : α) (m : List (Nat × α)) :
    mapFind k (entryOr k v m) = some ((mapFind k m).getD v) := by
  unfold entryOr mapContains
  cases hf : mapFind k m with
  | none => simp [mapFind_append_none k v m hf]
  | some w => simp [hf]

theorem mapFind_entryOr_ne {α : Type} (t k : Nat) (v : α) (m : List (Nat × α))
    (h : t ≠ k) : mapFind t (entryOr k v m) = mapFind t m := by
  unfold entryOr
  split
  · rfl
  · exact mapFind_append_ne t k v m h

theorem mapFind_mapErase_ne {α : Type} (t k : Nat) (m : List (Nat × α))
    (h : t ≠ k) : mapFind t (mapErase k m) = mapFind t m := by
  induction m with
  | nil => simp [mapErase]
  | cons p rest ih =>
      obtain ⟨k', w⟩ := p
      by_cases hk : k' = k
      · subst hk
        simp [mapErase, mapFind, Ne.symm h]
      · simp [mapErase, hk, mapFind, ih]

theorem mapFind_none_of_keyCount_zero {α : Type} (k : Nat) (m : List (Nat × α))
    (h : keyCount k m = 0) : mapFind k m = none := by
  induction m with
  | nil => simp [mapFind]
  | cons p rest ih =>
      obtain ⟨k', w⟩ := p
      by_cases hk : k' = k
      · simp [keyCount, hk] at h
      · simp [keyCount, hk] at h
        simp [mapFind, hk, ih h]

theorem keyCount_zero_of_find_none {α : Type} (k : Nat) (m : List (Nat × α))
    (h : mapFind k m = none) : keyCount k m = 0 := by
  induction m with
  | nil => simp [keyCount]
  | cons p rest ih =>
      obtain ⟨k', w⟩ := p
      by_cases hk : k' = k
      · simp [mapFind, hk] at h
      · simp [mapFind, hk] at h
        simp [keyCount, hk, ih h]

theorem mapFind_mapErase_self {α : Type} (k : Nat) (m : List (Nat × α))
    (h : keyCount k m ≤ 1) : mapFind k (mapErase k m) = none := by
  induction m with
  | nil => simp [mapErase, mapFind]
  | cons p rest ih =>
      obtain ⟨k', w⟩ := p
      by_cases hk : k' = k
      · subst hk
        simp [keyCount] at h
        simp [mapErase]
        exact mapFind_none_of_keyCount_zero k' rest (by omega)
      · simp [keyCount, hk] at h
        simp [mapErase, hk, mapFind, hk, ih h]

theorem keyCount_mapInsert_self {α : Type} (k : Nat) (v : α) (m : List (Nat × α)) :
    keyCount k (mapInsert k v m) = max 1 (keyCount k m) := by
  induction m with
  | nil => simp [mapInsert, keyCount]
  | cons p rest ih =>
      obtain ⟨k', w⟩ := p
      by_cases hk : k' = k
      · simp [mapInsert, hk, keyCount]
      · simp [mapInsert, hk, keyCount, ih]

theorem keyCount_mapInsert_ne {α : Type} (t k : Nat) (v : α) (m : List (Nat × α))
    (h : t ≠ k) : keyCount t (mapInsert k v m) = keyCount t m := by
  induction m with
  | nil => simp [mapInsert, keyCount, Ne.symm h]
  | cons p rest ih =>
      obtain ⟨k', w⟩ := p
      by_cases hk : k' = k
      · subst hk
        simp [mapInsert, keyCount, Ne.symm h]
      · simp [mapInsert, hk, keyCount, ih]

theorem keyCount_append_single {α : Type} (t k : Nat) (v : α) (m : List (Nat × α)) :
    keyCount t (m ++ [(k, v)]) = keyCount t m + (if k = t then 1 else 0) := by
  induction m with
  | nil => simp [keyCount]
  | cons p rest ih =>
      obtain ⟨k', w⟩ := p
      simp [keyCount, ih]
      omega

theorem keyCount_entryOr_le {α : Type} (t k : Nat) (v : α) (m : List (Nat × α))
    (h : keyCount t m ≤ 1) : keyCount t (entryOr k v m) ≤ 1 := by
  unfold entryOr mapContains
  cases hf : mapFind k m with
  | none =>
      simp [keyCount_append_single]
      by_cases hk : k = t
      · subst hk
        have := keyCount_zero_of_find_none k m hf
        simp [this]
      · simp [hk]
        exact h
  | some w => simpa using h

theorem keyCount_mapErase_le {α : Type} (t k : Nat) (m : List (Nat × α)) :
    keyCount t (mapErase k m) ≤ keyCount t m := by
  induction m with
  | nil => simp [mapErase]
  | cons p rest ih =>
      obtain ⟨k', w⟩ := p
      by_cases hk : k' = k
      · simp [mapErase, hk, keyCount]
      · simp [mapErase, hk, keyCount]
        omega

theorem mapContains_entryOr_mono {α : Type} (t k : Nat) (v : α) (m : List (Nat × α))
    (h : mapContains t m = true) : mapContains t (entryOr k v m) = true := by
  unfold mapContains at h ⊢
  by_cases hk : t = k
  · subst hk
    rw [mapFind_entryOr_self]
    simp
  · rw [mapFind_entryOr_ne t k v m hk]
    exact h

theorem mapContains_entryOr_self {α : Type} (k : Nat) (v : α) (m : List (Nat × α)) :
    mapContains k (entryOr k v m) = true := by
  unfold mapContains
  rw [mapFind_entryOr_self]
  simp

theorem mapContains_mapInsert_mono {α : Type} (t k : Nat) (v : α) (m : List (Nat × α))
    (h : mapContains t m = true) : mapContains t (mapInsert k v m) = true := by
  unfold mapContains at h ⊢
  by_cases hk : t = k
  · subst hk
    rw [mapFind_mapInsert_self]
    simp
  · rw [mapFind_mapInsert_ne t k v m hk]
    exact h

/-! Lemmas about occurrence counting and the completion index. -/

theorem occCount_le_length (x : Nat) (l : List Nat) : occCount x l ≤ l.length := by
  induction l with
  | nil => simp [occCount]
  | cons y ys ih =>
      simp [occCount, List.length]
      split <;> omega

theorem length_removeFirst_le (x : Nat) (l : List Nat) :
    (removeFirst x l).length ≤ l.length := by
  induction l with
  | nil => simp [removeFirst]
  | cons y ys ih =>
      by_cases hy : y = x
      · simp [removeFirst, hy]
      · simp [removeFirst, hy]
        exact ih

theorem elemNat_append_self (x : Nat) (l : List Nat) : elemNat x (l ++ [x]) = true := by
  induction l with
  | nil => simp [elemNat]
  | cons y ys ih =>
      by_cases hy : y = x
      · simp [elemNat, hy]
      · simp [elemNat, hy, ih]

theorem mapFind_btreeInsert_zero {α : Type} (v : α) (m : List (Nat × α)) :
    mapFind 0 (btreeInsert 0 v m) = some v := by
  cases m with
  | nil => simp [btreeInsert, mapFind]
  | cons p rest =>
      obtain ⟨k, w⟩ := p
      by_cases hk : k = 0
      · simp [btreeInsert, hk, mapFind]
      · have : 0 < k := Nat.pos_of_ne_zero hk
        simp [btreeInsert, this, mapFind]

theorem btreeInsert_zero_nil {α : Type} (v : α) : btreeInsert 0 v [] = [(0, v)] := by
  simp [btreeInsert]

theorem btreeInsert_zero_cons_zero {α : Type} (v w : α) (rest : List (Nat × α)) :
    btreeInsert 0 v ((0, w) :: rest) = (0, v) :: rest := by
  simp [btreeInsert]

/-- Exactness of the two's-complement wrap inside the `i64` range. -/
theorem wrap64_eq_of_bounds (x : Int) (h1 : -9223372036854775808 ≤ x)
    (h2 : x < 9223372036854775808) : wrap64 x = x := by
  unfold wrap64
  omega

/-! Shape lemmas for the facade operations. -/

theorem join_completion_eq (st : Music.MusicState) (sid : Nat) :
    (Music.join st sid).2.song_completion = st.song_completion := by
  unfold Music.join
  split <;> rfl

theorem join_sec_of_not_contains (st : Music.MusicState) (sid : Nat)
    (h : mapContains sid st.status = false) :
    (Music.join st sid).2 =
      { st with
        status := mapInsert sid none st.status,
        queue := entryOr sid [] st.queue } := by
  unfold Music.join
  simp [h]

theorem join_sec_of_contains (st : Music.MusicState) (sid : Nat)
    (h : mapContains sid st.status = true) : (Music.join st sid).2 = st := by
  unfold Music.join
  simp [h]

theorem leave_completion_eq (st : Music.MusicState) (sid : Nat) :
    (Music.leave st sid).song_completion = st.song_completion := rfl

theorem play_status_eq (st : Music.MusicState) (sid : Nat) (uE uV : Bool)
    (res : Option Music.MusicRequest) (iV : Bool) :
    (Music.play st sid uE uV res iV).status = st.status := by
  unfold Music.play
  split
  · rfl
  · split
    · rfl
    · cases res with
      | none => rfl
      | some req =>
          dsimp only
          split <;> rfl

theorem play_completion_eq (st : Music.MusicState) (sid : Nat) (uV iV : Bool)
    (req : Music.MusicRequest) :
    (Music.play st sid false uV (some req) iV).song_completion =
      if !mapContains sid st.status && iV then btreeInsert 0 [sid] st.song_completion
      else st.song_completion := by
  unfold Music.play
  simp only [Bool.and_false, Bool.false_eq_true, if_false, Bool.and_true]
  split <;> rfl

theorem play_queue_eq (st : Music.MusicState) (sid : Nat) (uV iV : Bool)
    (req : Music.MusicRequest) :
    (Music.play st sid false uV (some req) iV).queue =
      mapInsert sid ((mapFind sid (entryOr sid [] st.queue)).getD [] ++ [req])
        (entryOr sid [] st.queue) := by
  unfold Music.play
  simp only [Bool.and_false, Bool.false_eq_true, if_false]
  split <;> rfl

theorem play_completion_cases (st : Music.MusicState) (sid : Nat) (uE uV : Bool)
    (res : Option Music.MusicRequest) (iV : Bool) :
    (Music.play st sid uE uV res iV).song_completion = st.song_completion ∨
    (Music.play st sid uE uV res iV).song_completion =
      btreeInsert 0 [sid] st.song_completion := by
  unfold Music.play
  split
  · exact Or.inl rfl
  · split
    · exact Or.inl rfl
    · cases res with
      | none => exact Or.inl rfl
      | some req =>
          dsimp only
          split
          · exact Or.inr rfl
          · exact Or.inl rfl

theorem play_queue_cases (st : Music.MusicState) (sid : Nat) (uE uV : Bool)
    (res : Option Music.MusicRequest) (iV : Bool) :
    (Music.play st sid uE uV res iV).queue = st.queue ∨
    (Music.play st sid uE uV res iV).queue = entryOr sid [] st.queue ∨
    ∃ v, (Music.play st sid uE uV res iV).queue = mapInsert sid v (entryOr sid [] st.queue) := by
  unfold Music.play
  split
  · exact Or.inl rfl
  · split
    · exact Or.inr (Or.inl rfl)
    · cases res with
      | none => exact Or.inr (Or.inl rfl)
      | some req =>
          dsimp only
          split
          · exact Or.inr (Or.inr ⟨_, rfl⟩)
          · exact Or.inr (Or.inr ⟨_, rfl⟩)

theorem skip_queue_eq (st : Music.MusicState) (sid uid : Nat) :
    (Music.skip st sid uid).2.queue = st.queue := by
  unfold Music.skip
  split
  · split
    · rfl
    · split
      · split <;> rfl
      · rfl
  · rfl

theorem skip_status_cases (st : Music.MusicState) (sid uid : Nat) :
    (Music.skip st sid uid).2.status = st.status ∨
    (mapContains sid st.status = true ∧
      ∃ v, (Music.skip st sid uid).2.status = mapInsert sid v st.status) := by
  unfold Music.skip
  split
  · rename_i cur heq
    have hc : mapContains sid st.status = true := by
      unfold mapContains
      rw [heq]
      rfl
    split
    · exact Or.inr ⟨hc, _, rfl⟩
    · split
      · split
        · exact Or.inr ⟨hc, _, rfl⟩
        · exact Or.inr ⟨hc, _, rfl⟩
      · exact Or.inl rfl
  · exact Or.inl rfl

theorem skip_completion_cases (st : Music.MusicState) (sid uid : Nat) :
    (Music.skip st sid uid).2.song_completion = st.song_completion ∨
    (Music.skip st sid uid).2.song_completion =
      removeCompletion sid st.song_completion := by
  unfold Music.skip
  split
  · split
    · exact Or.inr rfl
    · split
      · split
        · exact Or.inr rfl
        · exact Or.inl rfl
      · exact Or.inl rfl
  · exact Or.inl rfl

/-! Reachability invariants. -/

/-- Invariant of the completion index over reachable states: the modelled
operations only ever populate the immediate-start key `0`, and
`BTreeMap::insert` replaces the value wholesale, so at most one server is
registered at any instant. -/
def CompInv (st : Music.MusicState) : Prop :=
  st.song_completion = [] ∨
  ∃ l, st.song_completion = [(0, l)] ∧ l.length ≤ 1

theorem compInv_removeCompletion (sid : Nat) (sc : List (Nat × List Nat))
    (h : sc = [] ∨ ∃ l, sc = [(0, l)] ∧ l.length ≤ 1) :
    removeCompletion sid sc = [] ∨
    ∃ l, removeCompletion sid sc = [(0, l)] ∧ l.length ≤ 1 := by
  rcases h with h | ⟨l, hsc, hlen⟩
  · subst h
    exact Or.inl rfl
  · subst hsc
    by_cases he : elemNat sid l = true
    · refine Or.inr ⟨removeFirst sid l, ?_, ?_⟩
      · simp [removeCompletion, he]
      · exact le_trans (length_removeFirst_le sid l) hlen
    · refine Or.inr ⟨l, ?_, hlen⟩
      simp [removeCompletion, he]

theorem compInv_btreeInsert (sid : Nat) (sc : List (Nat × List Nat))
    (h : sc = [] ∨ ∃ l, sc = [(0, l)] ∧ l.length ≤ 1) :
    btreeInsert 0 [sid] sc = [] ∨
    ∃ l, btreeInsert 0 [sid] sc = [(0, l)] ∧ l.length ≤ 1 := by
  rcases h with h | ⟨l, hsc, _⟩
  · subst h
    exact Or.inr ⟨[sid], rfl, by simp⟩
  · subst hsc
    exact Or.inr ⟨[sid], by simp [btreeInsert], by simp⟩

theorem reachable_compInv (st : Music.MusicState) (h : Music.Reachable st) :
    CompInv st := by
  induction h with
  | init => exact Or.inl rfl
  | step hr hs ih =>
      rename_i s s'
      cases hs with
      | join sid =>
          unfold CompInv
          rw [join_completion_eq]
          exact ih
      | leave sid =>
          unfold CompInv
          rw [leave_completion_eq]
          exact ih
      | play sid uE uV res iV =>
          rcases play_completion_cases s sid uE uV res iV with hc | hc
          · unfold CompInv
            rw [hc]
            exact ih
          · unfold CompInv
            rw [hc]
            exact compInv_btreeInsert sid _ ih
      | skip sid uid =>
          rcases skip_completion_cases s sid uid with hc | hc
          · unfold CompInv
            rw [hc]
            exact ih
          · unfold CompInv
            rw [hc]
            exact compInv_removeCompletion sid _ ih

/-- Invariants of the two `HashMap`s over reachable states: keys are
unique, and every status key also has a queue entry. -/
def MapsInv (st : Music.MusicState) : Prop :=
  (∀ k, keyCount k st.status ≤ 1) ∧ (∀ k, keyCount k st.queue ≤ 1) ∧
  (∀ k, mapContains k st.status = true → mapContains k st.queue = true)

theorem reachable_mapsInv (st : Music.MusicState) (h : Music.Reachable st) :
    MapsInv st := by
  induction h with
  | init =>
      refine ⟨fun k => ?_, fun k => ?_, fun k hk => ?_⟩
      · simp [Music.MusicState.new, keyCount]
      · simp [Music.MusicState.new, keyCount]
      · simp [Music.MusicState.new, mapContains, mapFind] at hk
  | step hr hs ih =>
      rename_i s s'
      obtain ⟨ihs, ihq, ihsq⟩ := ih
      cases hs with
      | join sid =>
          by_cases hc : mapContains sid s.status = true
          · rw [join_sec_of_contains s sid hc]
            exact ⟨ihs, ihq, ihsq⟩
          · rw [join_sec_of_not_contains s sid (by simpa using hc)]
            refine ⟨fun k => ?_, fun k => ?_, fun k hk => ?_⟩
            · by_cases hks : k = sid
              · subst hks
                simp only [keyCount_mapInsert_self]
                have := ihs k
                omega
              · rw [keyCount_mapInsert_ne k sid none s.status hks]
                exact ihs k
            · exact keyCount_entryOr_le k sid [] s.queue (ihq k)
            · by_cases hks : k = sid
              · subst hks
                exact mapContains_entryOr_self k [] s.queue
              · have hsk : mapContains k s.status = true := by
                  unfold mapContains at hk ⊢
                  rwa [mapFind_mapInsert_ne k sid none s.status hks] at hk
                exact mapContains_entryOr_mono k sid [] s.queue (ihsq k hsk)
      | leave sid =>
          refine ⟨fun k => ?_, fun k => ?_, fun k hk => ?_⟩
          · exact le_trans (keyCount_mapErase_le k sid s.status) (ihs k)
          · exact le_trans (keyCount_mapErase_le k sid s.queue) (ihq k)
          · by_cases hks : k = sid
            · subst hks
              have hnone := mapFind_mapErase_self k s.status (ihs k)
              unfold mapContains at hk
              rw [show (Music.leave s k).status = mapErase k s.status from rfl, hnone] at hk
              simp at hk
            · have hsk : mapContains k s.status = true := by
                unfold mapContains at hk ⊢
                rw [show (Music.leave s sid).status = mapErase sid s.status from rfl] at hk
                rwa [mapFind_mapErase_ne k sid s.status hks] at hk
              have hq := ihsq k hsk
              unfold mapContains at hq ⊢
              rw [show (Music.leave s sid).queue = mapErase sid s.queue from rfl]
              rwa [mapFind_mapErase_ne k sid s.queue hks]
      | play sid uE uV res iV =>
          refine ⟨fun k => ?_, fun k => ?_, fun k hk => ?_⟩
          · rw [play_status_eq]
            exact ihs k
          · rcases play_queue_cases s sid uE uV res iV with hq | hq | ⟨v, hq⟩
            · rw [hq]
              exact ihq k
            · rw [hq]
              exact keyCount_entryOr_le k sid [] s.queue (ihq k)
            · rw [hq]
              by_cases hks : k = sid
              · subst hks
                simp only [keyCount_mapInsert_self]
                have := keyCount_entryOr_le k k [] s.queue (ihq k)
                omega
              · rw [keyCount_mapInsert_ne k sid v _ hks]
                exact keyCount_entryOr_le k sid [] s.queue (ihq k)
          · rw [play_status_eq] at hk
            have hq0 := ihsq k hk
            rcases play_queue_cases s sid uE uV res iV with hq | hq | ⟨v, hq⟩
            · rw [hq]
              exact hq0
            · rw [hq]
              exact mapContains_entryOr_mono k sid [] s.queue hq0
            · rw [hq]
              exact mapContains_mapInsert_mono k sid v _
                (mapContains_entryOr_mono k sid [] s.queue hq0)
      | skip sid uid =>
          refine ⟨fun k => ?_, fun k => ?_, fun k hk => ?_⟩
          · rcases skip_status_cases s sid uid with hs' | ⟨hc, v, hs'⟩
            · rw [hs']
              exact ihs k
            · rw [hs']
              by_cases hks : k = sid
              · subst hks
                simp only [keyCount_mapInsert_self]
                have := ihs k
                omega
              · rw [keyCount_mapInsert_ne k sid v _ hks]
                exact ihs k
          · rw [skip_queue_eq]
            exact ihq k
          · rw [skip_queue_eq]
            rcases skip_status_cases s sid uid with hs' | ⟨hc, v, hs'⟩
            · rw [hs'] at hk
              exact ihsq k hk
            · rw [hs'] at hk
              by_cases hks : k = sid
              · subst hks
                exact ihsq k hc
              · have hsk : mapContains k s.status = true := by
                  unfold mapContains at hk ⊢
                  rwa [mapFind_mapInsert_ne k sid v s.status hks] at hk
                exact ihsq k hsk

/-! Concrete fixtures used by witnesses and counterexamples. -/

/-- A concrete resolved request (requester is user 9). -/
def reqA : Music.MusicRequest :=
  { response :=
      { data :=
          { duration := 185, fulltitle := "song", title := "song",
            uploader := "up", view_count := 3 },
        filepath := "f.mp3" },
    requested_in := 7,
    requester_name := "alice",
    requester := 9 }

/-- A playing record needing 2 skip votes, none cast yet. -/
def curA : Music.MusicPlaying :=
  { req := reqA, skip_votes_required := 2, skip_votes := [], started_at := 40 }

/-- Server 1 playing `curA` and registered once in the completion index. -/
def stA : Music.MusicState :=
  { queue := [(1, [])], song_completion := [(0, [1])], status := [(1, some curA)] }

/-- Server 1 connected-idle: a status key present with no playing record. -/
def stC : Music.MusicState :=
  { queue := [(1, [])], song_completion := [], status := [(1, none)] }

/-- Server 1 connected-idle with a queued item and a completion entry. -/
def stD : Music.MusicState :=
  { queue := [(1, [reqA])], song_completion := [(0, [1])], status := [(1, none)] }

/-! Claim theorems. -/

/-- C1: for a server with a playing record and any voting user, the
outcome of `Music::skip` follows the transition table: no record (status
key absent or empty) reports no-song-playing with no mutation; a voting
user equal to the requester yields `VoterSkipped` regardless of the
tally; a user already counted yields `AlreadyVoted` with no mutation;
otherwise the user is appended to `skip_votes` and the outcome is
`Passed` exactly when the new tally reaches `skip_votes_required`, else
`Voted` with the vote recorded. -/
theorem skip_transition_table_c1 (st : Music.MusicState) (sid uid : Nat) :
    (mapFind sid st.status = none → Music.skip st sid uid = (none, st)) ∧
    (mapFind sid st.status = some none → Music.skip st sid uid = (none, st)) ∧
    (∀ cur : Music.MusicPlaying, mapFind sid st.status = some (some cur) →
      (cur.req.requester = uid →
        (Music.skip st sid uid).1 = some Music.SkipVote.VoterSkipped) ∧
      (cur.req.requester ≠ uid → elemNat uid cur.skip_votes = true →
        Music.skip st sid uid = (some Music.SkipVote.AlreadyVoted, st)) ∧
      (cur.req.requester ≠ uid → elemNat uid cur.skip_votes = false →
        (Music.skip st sid uid).1 =
          some (if cur.skip_votes_required ≤ cur.skip_votes.length + 1
            then Music.SkipVote.Passed else Music.SkipVote.Voted) ∧
        (cur.skip_votes.length + 1 < cur.skip_votes_required →
          mapFind sid (Music.skip st sid uid).2.status =
            some (some { cur with skip_votes := cur.skip_votes ++ [uid] })))) := by
  refine ⟨?_, ?_, ?_⟩
  · intro h
    unfold Music.skip
    rw [h]
  · intro h
    unfold Music.skip
    rw [h]
  · intro cur h
    refine ⟨?_, ?_, ?_⟩
    · intro hreq
      unfold Music.skip
      rw [h]
      simp [hreq]
    · intro hreq helem
      unfold Music.skip
      rw [h]
      simp [hreq, helem]
    · intro hreq helem
      constructor
      · unfold Music.skip
        rw [h]
        simp only [hreq, if_neg hreq, helem, Bool.not_false, if_pos rfl,
          List.length_append, List.length_cons, List.length_nil, Nat.zero_add]
        by_cases hpass : cur.skip_votes_required ≤ cur.skip_votes.length + 1
        · rw [if_pos hpass, if_pos hpass]
          simp
        · rw [if_neg hpass, if_neg hpass]
          simp
      · intro hlt
        unfold Music.skip
        rw [h]
        simp only [hreq, if_neg hreq, helem, Bool.not_false, if_pos rfl,
          List.length_append, List.length_cons, List.length_nil, Nat.zero_add]
        rw [if_neg (show ¬ cur.skip_votes_required ≤ cur.skip_votes.length + 1 by omega)]
        exact mapFind_mapInsert_self sid _ st.status

/-- C1 witness: in the concrete state `stA` a first vote by non-requester
user 5 registers as `Voted`. -/
theorem skip_transition_table_c1_witness :
    (Music.skip stA 1 5).1 = some Music.SkipVote.Voted := by
  have h := (((skip_transition_table_c1 stA 1 5).2.2 curA (by decide)).2.2
      (by decide) (by decide)).1
  exact h.trans (by decide)

/-- C7: a non-requester voter whose first skip call does not force a stop
gets `AlreadyVoted` from an immediately repeated call, which leaves the
whole state exactly as it was before that second call. -/
theorem skip_double_vote_c7 (st : Music.MusicState) (sid uid : Nat)
    (cur : Music.MusicPlaying) (hfind : mapFind sid st.status = some (some cur))
    (hne : cur.req.requester ≠ uid)
    (hnf : (Music.skip st sid uid).1 ≠ some Music.SkipVote.Passed) :
    Music.skip (Music.skip st sid uid).2 sid uid =
      (some Music.SkipVote.AlreadyVoted, (Music.skip st sid uid).2) := by
  by_cases helem : elemNat uid cur.skip_votes = true
  · have h1 : Music.skip st sid uid = (some Music.SkipVote.AlreadyVoted, st) := by
      unfold Music.skip
      rw [hfind]
      simp [hne, helem]
    rw [h1]
    exact h1
  · simp only [Bool.not_eq_true] at helem
    by_cases hpass : cur.skip_votes_required ≤ cur.skip_votes.length + 1
    · have h1 : (Music.skip st sid uid).1 = some Music.SkipVote.Passed := by
        unfold Music.skip
        rw [hfind]
        simp only [hne, if_neg hne, helem, Bool.not_false, if_pos rfl,
          List.length_append, List.length_cons, List.length_nil, Nat.zero_add]
        rw [if_pos hpass]
        simp
      exact absurd h1 hnf
    · have h1 : Music.skip st sid uid =
          (some Music.SkipVote.Voted, { queue := st.queue, song_completion := st.song_completion, status := mapInsert sid (some { cur with skip_votes := cur.skip_votes ++ [uid] }) st.status }) := by
        unfold Music.skip
        rw [hfind]
        simp only [hne, if_neg hne, helem, Bool.not_false, if_pos rfl,
          List.length_append, List.length_cons, List.length_nil, Nat.zero_add]
        rw [if_neg hpass]
        rfl
      rw [h1]
      unfold Music.skip
      simp [mapFind_mapInsert_self, hne, elemNat_append_self]

/-- C7 witness: user 5 votes once in `stA` (outcome `Voted`, not a forced
stop); the repeated vote reports `AlreadyVoted` and changes nothing. -/
theorem skip_double_vote_c7_witness :
    Music.skip (Music.skip stA 1 5).2 1 5 =
      (some Music.SkipVote.AlreadyVoted, (Music.skip stA 1 5).2) :=
  skip_double_vote_c7 stA 1 5 curA (by decide) (by decide) (by decide)

/-- C3 counterexample: server 1 is connected-idle (status key present,
empty record) and the gateway reports a voice connection, yet the
successful play call registers nothing in the completion index, because
the code requires the status key to be absent. -/
theorem play_idle_connected_not_registered_c3 :
    mapFind 1 stC.status = some none ∧
    (Music.play stC 1 false false (some reqA) true).song_completion = [] ∧
    mapFind 0 (Music.play stC 1 false false (some reqA) true).song_completion = none := by
  decide

/-- C3 (amended): a successfully resolving play call registers the server
under key 0 of the completion index if and only if, evaluated before the
enqueue, no status entry existed for the server (not connected-idle, but
key-absent) and the gateway reported an active voice connection; in every
other case the completion index is unchanged. -/
theorem play_registration_condition_c3 (st : Music.MusicState) (sid : Nat)
    (uV iV : Bool) (req : Music.MusicRequest) :
    (mapContains sid st.status = false → iV = true →
      mapFind 0 (Music.play st sid false uV (some req) iV).song_completion = some [sid]) ∧
    (mapContains sid st.status = true ∨ iV = false →
      (Music.play st sid false uV (some req) iV).song_completion = st.song_completion) := by
  constructor
  · intro h1 h2
    rw [play_completion_eq]
    simp [h1, h2, mapFind_btreeInsert_zero]
  · intro h
    rw [play_completion_eq]
    rcases h with h | h <;> simp [h]

/-- C3 witness: from the empty state (no status key) with an active voice
connection, a play call registers server 1 under key 0. -/
theorem play_registration_condition_c3_witness :
    mapFind 0 (Music.play Music.MusicState.new 1 false true (some reqA) true).song_completion
      = some [1] :=
  (play_registration_condition_c3 Music.MusicState.new 1 true true reqA).1 (by decide) rfl

/-- C4 counterexample: server 1 is registered for completion in `stD`; a
leave call removes the status and queue entries but leaves the
completion-index membership in place, contradicting the claim that
teardown drops it. -/
theorem leave_keeps_completion_c4 :
    mapFind 1 (Music.leave stD 1).status = none ∧
    mapFind 1 (Music.leave stD 1).queue = none ∧
    (Music.leave stD 1).song_completion = [(0, [1])] ∧
    compCount 1 (Music.leave stD 1).song_completion = 1 := by
  decide

/-- C4 (amended): after a leave call the server has no status entry and
no queue entry, but the completion index is left entirely unchanged — any
prior membership of the server survives. -/
theorem leave_teardown_c4 (st : Music.MusicState) (sid : Nat)
    (hs : keyCount sid st.status ≤ 1) (hq : keyCount sid st.queue ≤ 1) :
    mapFind sid (Music.leave st sid).status = none ∧
    mapFind sid (Music.leave st sid).queue = none ∧
    (Music.leave st sid).song_completion = st.song_completion :=
  ⟨mapFind_mapErase_self sid st.status hs, mapFind_mapErase_self sid st.queue hq, rfl⟩

/-- C4 witness: leaving in the concrete state `stD`. -/
theorem leave_teardown_c4_witness :
    mapFind 1 (Music.leave stD 1).status = none ∧
    mapFind 1 (Music.leave stD 1).queue = none ∧
    (Music.leave stD 1).song_completion = stD.song_completion :=
  leave_teardown_c4 stD 1 (by decide) (by decide)

/-- C5: in every state reachable by join, leave, play and skip calls, a
server occurs at most once in the completion index in total, and under at
most one key. -/
theorem completion_at_most_once_c5 (st : Music.MusicState)
    (h : Music.Reachable st) (sid : Nat) :
    compCount sid st.song_completion ≤ 1 ∧ keysWith sid st.song_completion ≤ 1 := by
  rcases reachable_compInv st h with hc | ⟨l, hc, hlen⟩
  · rw [hc]
    simp [compCount, keysWith]
  · rw [hc]
    constructor
    · simp only [compCount, Nat.add_zero]
      exact le_trans (occCount_le_length sid l) hlen
    · simp only [keysWith, Nat.add_zero]
      split <;> omega

/-- C5 witness: the reachable state after one play call that registered
server 1 for immediate start. -/
theorem completion_at_most_once_c5_witness :
    compCount 1 (Music.play Music.MusicState.new 1 false true (some reqA) true).song_completion ≤ 1 ∧
    keysWith 1 (Music.play Music.MusicState.new 1 false true (some reqA) true).song_completion ≤ 1 :=
  completion_at_most_once_c5 _
    (Music.Reachable.step Music.Reachable.init
      (Music.Step.play Music.MusicState.new 1 false true (some reqA) true)) 1

/-- C6 counterexample: one reachable step from the empty state — a play
call for a server with no session whose requesting user is not in voice —
creates a queue entry but no status entry, so the two maps do not have the
same keys. -/
theorem play_queue_without_status_c6 :
    Music.Reachable (Music.play Music.MusicState.new 1 false false (some reqA) false) ∧
    mapContains 1 (Music.play Music.MusicState.new 1 false false (some reqA) false).queue = true ∧
    mapContains 1 (Music.play Music.MusicState.new 1 false false (some reqA) false).status = false :=
  ⟨Music.Reachable.step Music.Reachable.init
      (Music.Step.play Music.MusicState.new 1 false false (some reqA) false),
   by decide, by decide⟩

/-- C6 (amended): in every reachable state, a server with a status entry
also has a queue entry; the converse fails, since play creates queue
entries without status entries. -/
theorem status_implies_queue_c6 (st : Music.MusicState) (h : Music.Reachable st)
    (sid : Nat) (hs : mapContains sid st.status = true) :
    mapContains sid st.queue = true :=
  (reachable_mapsInv st h).2.2 sid hs

/-- C6 witness: after a join from the empty state, server 1 has both a
status entry and a queue entry. -/
theorem status_implies_queue_c6_witness :
    mapContains 1 (Music.join Music.MusicState.new 1).2.queue = true :=
  status_implies_queue_c6 _
    (Music.Reachable.step Music.Reachable.init (Music.Step.join Music.MusicState.new 1))
    1 (by decide)

/-- C8: a play call that successfully resolves a song makes the server's
queue equal to its old queue with the new request appended at the end,
and leaves every other server's queue entry unchanged. -/
theorem play_appends_framed_c8 (st : Music.MusicState) (sid : Nat)
    (uV iV : Bool) (req : Music.MusicRequest) :
    mapFind sid (Music.play st sid false uV (some req) iV).queue =
      some ((mapFind sid st.queue).getD [] ++ [req]) ∧
    ∀ t : Nat, t ≠ sid →
      mapFind t (Music.play st sid false uV (some req) iV).queue = mapFind t st.queue := by
  constructor
  · rw [play_queue_eq, mapFind_mapInsert_self, mapFind_entryOr_self]
    simp
  · intro t ht
    rw [play_queue_eq, mapFind_mapInsert_ne t sid _ _ ht, mapFind_entryOr_ne t sid _ _ ht]

/-- C8 witness: playing in `stA` for server 1 appends to its empty queue
and leaves absent server 2 absent. -/
theorem play_appends_framed_c8_witness :
    mapFind 1 (Music.play stA 1 false true (some reqA) true).queue = some [reqA] ∧
    mapFind 2 (Music.play stA 1 false true (some reqA) true).queue = mapFind 2 stA.queue := by
  have h := play_appends_framed_c8 stA 1 true true reqA
  exact ⟨h.1.trans (by decide), h.2 2 (by decide)⟩

/-- C9: the status operation never mutates the state; with no playing
record (status key absent or empty) it reports no-song-playing; with a
playing record, and whenever the timestamp and duration are inside the
`i64` range, it reports exactly elapsed = now − startedAt and
remaining = (startedAt + duration) − now. -/
theorem status_readonly_exact_c9 (st : Music.MusicState) (sid : Nat) (now : Int) :
    (Music.statusOp st sid now).2 = st ∧
    (mapFind sid st.status = none → (Music.statusOp st sid now).1 = none) ∧
    (mapFind sid st.status = some none → (Music.statusOp st sid now).1 = none) ∧
    (∀ cur : Music.MusicPlaying, mapFind sid st.status = some (some cur) →
      0 ≤ now → now < 9223372036854775808 →
      (cur.started_at : Int) + (cur.req.response.data.duration : Int) < 9223372036854775808 →
      (Music.statusOp st sid now).1 =
        some (now - (cur.started_at : Int),
          ((cur.started_at : Int) + (cur.req.response.data.duration : Int)) - now)) := by
  refine ⟨?_, ?_, ?_, ?_⟩
  · unfold Music.statusOp
    split <;> rfl
  · intro h
    unfold Music.statusOp
    rw [h]
  · intro h
    unfold Music.statusOp
    rw [h]
  · intro cur h h0 hn hd
    have hs : (0:Int) ≤ (cur.started_at : Int) := Int.ofNat_nonneg _
    have hdu : (0:Int) ≤ (cur.req.response.data.duration : Int) := Int.ofNat_nonneg _
    unfold Music.statusOp
    rw [h]
    dsimp only
    rw [wrap64_eq_of_bounds (cur.started_at : Int) (by omega) (by omega),
      wrap64_eq_of_bounds (cur.req.response.data.duration : Int) (by omega) (by omega),
      wrap64_eq_of_bounds ((cur.started_at : Int) + (cur.req.response.data.duration : Int))
        (by omega) (by omega),
      wrap64_eq_of_bounds (now - (cur.started_at : Int)) (by omega) (by omega),
      wrap64_eq_of_bounds (((cur.started_at : Int) + (cur.req.response.data.duration : Int)) - now)
        (by omega) (by omega)]

/-- C9 witness: at now = 100 the record started at 40 with duration 185
reports elapsed 60 and remaining 125, and the state is untouched. -/
theorem status_readonly_exact_c9_witness :
    (Music.statusOp stA 1 100).1 = some (60, 125) ∧ (Music.statusOp stA 1 100).2 = stA := by
  have h := status_readonly_exact_c9 stA 1 100
  have h4 := h.2.2.2 curA (by decide) (by decide) (by decide) (by decide)
  exact ⟨h4.trans (by decide), h.1⟩

/-- C10: in any reachable state, when a successfully resolving play call
registers server `sid` for immediate start (no status key, in voice), the
key-0 entry of the completion index is replaced wholesale by the
single-element list containing `sid`; every other server that was under
key 0 before the call is afterwards nowhere in the completion index. -/
theorem play_immediate_replaces_c10 (st : Music.MusicState)
    (h : Music.Reachable st) (sid t : Nat) (uV : Bool) (req : Music.MusicRequest)
    (hadd : mapContains sid st.status = false) (hne : t ≠ sid)
    (hmem : elemNat t ((mapFind 0 st.song_completion).getD []) = true) :
    mapFind 0 (Music.play st sid false uV (some req) true).song_completion = some [sid] ∧
    compCount t (Music.play st sid false uV (some req) true).song_completion = 0 := by
  have hcomp : (Music.play st sid false uV (some req) true).song_completion =
      btreeInsert 0 [sid] st.song_completion := by
    rw [play_completion_eq]
    simp [hadd]
  rcases reachable_compInv st h with hc | ⟨l, hc, hlen⟩
  · rw [hc] at hmem
    simp [mapFind, elemNat] at hmem
  · refine ⟨?_, ?_⟩
    · rw [hcomp]
      exact mapFind_btreeInsert_zero [sid] st.song_completion
    · rw [hcomp, hc, btreeInsert_zero_cons_zero]
      simp [compCount, occCount, Ne.symm hne]

/-- C10 witness: server 2 was registered under key 0 (reachable by one
play call); a registering play call for server 1 replaces the key-0 entry
with just server 1 and evicts server 2 from the whole index. -/
theorem play_immediate_replaces_c10_witness :
    mapFind 0 (Music.play (Music.play Music.MusicState.new 2 false true (some reqA) true)
      1 false true (some reqA) true).song_completion = some [1] ∧
    compCount 2 (Music.play (Music.play Music.MusicState.new 2 false true (some reqA) true)
      1 false true (some reqA) true).song_completion = 0 :=
  play_immediate_replaces_c10 _
    (Music.Reachable.step Music.Reachable.init
      (Music.Step.play Music.MusicState.new 2 false true (some reqA) true))
    1 2 true reqA (by decide) (by decide) (by decide)
